import Mathlib

/-!
Verification of the datastore entity/key codec (`lib/datastore/entity.js`):
a shallow embedding of the Key model, the value codec, the entity codec and
the query compiler, together with theorems about the specified behaviour.

JavaScript numbers are modelled as rationals, JavaScript `undefined` / `null`
as `Option.none`, thrown errors as `Except.error`.
-/

set_option maxRecDepth 8000

namespace GCloudEntity

/-- A JavaScript value that can appear in a datastore key path slot:
a string, a number (modelled as a rational), or `undefined`. -/
inductive PVal : Type where
  | str (s : String)
  | num (q : ℚ)
  | undefined
deriving DecidableEq, Repr

/-- JavaScript truthiness for path-slot values: `undefined` is falsy, the
empty string is falsy, `0` is falsy. -/
def truthy : PVal → Bool
  | .str s => decide (s ≠ "")
  | .num q => decide (q ≠ 0)
  | .undefined => false

/-- `is.string` on a path-slot value. -/
def isStr : PVal → Bool
  | .str _ => true
  | _ => false

/-- The `Key` object built by the `Key` constructor: a namespace, a kind (an
arbitrary popped value, not validated), an optional numeric id, an optional
string name, and an optional parent.  (`nameSpace` stands for the source's
`namespace` field, which is a reserved word here.) -/
inductive KeyStruct : Type where
  | mk (nameSpace : Option String) (kind : PVal) (id : Option ℚ)
       (name : Option String) (parent : Option KeyStruct)

def KeyStruct.nameSpace : KeyStruct → Option String
  | .mk ns _ _ _ _ => ns

def KeyStruct.kind : KeyStruct → PVal
  | .mk _ k _ _ _ => k

def KeyStruct.id : KeyStruct → Option ℚ
  | .mk _ _ i _ _ => i

def KeyStruct.name : KeyStruct → Option String
  | .mk _ _ _ n _ => n

def KeyStruct.parent : KeyStruct → Option KeyStruct
  | .mk _ _ _ _ p => p

/-- Classification of the popped identifier in the `Key` constructor
(`is.number` → `id`, `is.string` → `name`, anything else sets neither). -/
def identParts : PVal → Option ℚ × Option String
  | .num q => (some q, none)
  | .str s => (none, some s)
  | .undefined => (none, none)

/-- The `Key` constructor, operating on the reversed path (JavaScript pops
from the tail).  When the remaining length is even an identifier is popped
first; then the kind is popped; a parent key is built while elements remain. -/
def buildKeyRev (ns : Option String) : List PVal → KeyStruct
  | [] => .mk ns .undefined none none none
  | [k] => .mk ns k none none none
  | idv :: k :: rest =>
      if (idv :: k :: rest).length % 2 == 0 then
        let p := identParts idv
        .mk ns k p.1 p.2 (if rest.isEmpty then none else some (buildKeyRev ns rest))
      else
        .mk ns idv none none (some (buildKeyRev ns (k :: rest)))

/-- `new Key({namespace, path})`. -/
def buildKey (ns : Option String) (path : List PVal) : KeyStruct :=
  buildKeyRev ns path.reverse

/-- The id slot seen through `||`: a present id (even `0`) or `undefined`. -/
def idSlot : Option ℚ → PVal
  | some q => .num q
  | none => .undefined

/-- JavaScript `this.name || this.id`: the name when truthy, else the id when
present (possibly `0`), else `undefined`. -/
def nameOrIdOf (name : Option String) (id : Option ℚ) : PVal :=
  match name with
  | some s => if s = "" then idSlot id else .str s
  | none => idSlot id

def nameOrId (k : KeyStruct) : PVal :=
  nameOrIdOf k.name k.id

/-- The derived `path` property: the parent's path (empty when absent)
followed by `[kind, name-or-id]`; the identifier slot is appended even when
it is `undefined`. -/
def keyPathElems : KeyStruct → List PVal
  | .mk _ kind id name parent =>
      (match parent with
       | none => []
       | some p => keyPathElems p) ++ [kind, nameOrIdOf name id]

/-- One element of a protocol key path: `{ kind, id?, name? }`.  A protocol
key coming off the wire may carry its id as a string, so the id slot holds a
`PVal`. -/
structure PathElem : Type where
  kind : PVal
  id : Option PVal := none
  name : Option String := none
deriving DecidableEq, Repr

/-- A protocol key: `{ path_element, partition_id?: { namespace } }` (the
`partition_id` wrapper is flattened to its single `namespace` field). -/
structure KeyProto : Type where
  path_element : List PathElem
  partition_id : Option String := none
deriving DecidableEq, Repr

/-- The stride-2 loop of `keyToKeyProto`: `keyPath[i]` is the kind and
`keyPath[i+1]` the identifier of a group; a truthy number becomes `id`, any
other truthy value becomes `name`; a falsy identifier on a non-final group
throws. -/
def protoPath : List PVal → Except String (List PathElem)
  | [] => .ok []
  | [k] => .ok [{ kind := k }]
  | k :: v :: rest => do
      let p : PathElem ←
        if truthy v then
          match v with
          | .num q => pure { kind := k, id := some (.num q) }
          | .str s => pure { kind := k, name := some s }
          | .undefined => pure { kind := k }
        else if rest.isEmpty then
          pure { kind := k }
        else
          .error "Invalid key. Ancestor keys require an id or name."
      let ps ← protoPath rest
      .ok (p :: ps)

/-- `keyToKeyProto`: reads the derived path, requires its first element to be
a string (the root kind), builds the stride-2 groups, and attaches
`partition_id` only when the namespace is truthy. -/
def keyToKeyProto (k : KeyStruct) : Except String KeyProto :=
  match (keyPathElems k).head? with
  | some (.str _) => do
      let pe ← protoPath (keyPathElems k)
      .ok { path_element := pe,
            partition_id := k.nameSpace.bind (fun s => if s = "" then none else some s) }
  | _ => .error "A key should contain at least a kind."

/-- Truthiness of a protocol id slot. -/
def idTruthy : Option PVal → Bool
  | some v => truthy v
  | none => false

/-- Truthiness of a protocol name slot. -/
def nameTruthy : Option String → Bool
  | some s => decide (s ≠ "")
  | none => false

/-- `isKeyComplete`: converts to protocol form — propagating any conversion
failure, there is no catch — and then requires every element to have a truthy
kind and a truthy id or name. -/
def isKeyComplete (k : KeyStruct) : Except String Bool := do
  let proto ← keyToKeyProto k
  .ok (proto.path_element.all (fun p => truthy p.kind && (idTruthy p.id || nameTruthy p.name)))

/-- Reads a non-empty all-digit character list as a natural number;
any non-digit character yields `none`. -/
def digitsToNatAux (acc : Nat) : List Char → Option Nat
  | [] => some acc
  | c :: cs =>
      if 48 ≤ c.toNat && c.toNat ≤ 57 then digitsToNatAux (acc * 10 + (c.toNat - 48)) cs
      else none

/-- A partial model of JavaScript `Number()` on the values a protocol id slot
can hold: a number converts to itself, the empty string to `0`, a string of
decimal digits to that natural number, any other string to NaN (`none`; this
model does not cover signed, fractional or exponent notations, which the
claims never exercise), and an absent slot to NaN. -/
def jsNumber : Option PVal → Option ℚ
  | some (.num q) => some q
  | some (.str s) =>
      if s = "" then some 0
      else
        match digitsToNatAux 0 s.data with
        | some n => some (n : ℚ)
        | none => none
  | some .undefined => none
  | none => none

/-- A name slot as a value: the string, or `undefined` when absent. -/
def nameSlot : Option String → PVal
  | some s => .str s
  | none => .undefined

/-- `Number(path.id) || path.name`: the parsed id when truthy, else the name
slot. -/
def elemIdent (p : PathElem) : PVal :=
  match jsNumber p.id with
  | some q => if q = 0 then nameSlot p.name else .num q
  | none => nameSlot p.name

/-- The `forEach` over `path_element` in `keyFromKeyProto`: pushes the kind,
then the identifier when truthy; a falsy identifier on a non-final element
throws. -/
def protoToPath : List PathElem → Except String (List PVal)
  | [] => .ok []
  | [p] =>
      let idv := elemIdent p
      .ok (if truthy idv then [p.kind, idv] else [p.kind])
  | p :: rest =>
      let idv := elemIdent p
      if truthy idv then do
        let tl ← protoToPath rest
        .ok (p.kind :: idv :: tl)
      else .error "Invalid key. Ancestor keys require an id or name."

/-- `keyFromKeyProto`: reads the namespace when truthy, accumulates the path,
and builds a `Key` from it. -/
def keyFromKeyProto (proto : KeyProto) : Except String KeyStruct := do
  let ns := proto.partition_id.bind (fun s => if s = "" then none else some s)
  let path ← protoToPath proto.path_element
  .ok (buildKey ns path)

/-- A protocol property: at most one of the value fields is set; `indexed`
rides along on nested entity values.  Field presence (`exists`) is modelled
by `Option`. -/
inductive Property : Type where
  | mk (boolean_value : Option Bool) (integer_value : Option ℚ) (double_value : Option ℚ)
       (string_value : Option String) (blob_value : Option (List Nat))
       (timestamp_microseconds_value : Option ℤ) (key_value : Option KeyProto)
       (entity_value : Option (List (String × Property)))
       (list_value : Option (List Property)) (indexed : Option Bool)

def Property.boolean_value : Property → Option Bool
  | .mk b _ _ _ _ _ _ _ _ _ => b

def Property.integer_value : Property → Option ℚ
  | .mk _ i _ _ _ _ _ _ _ _ => i

def Property.double_value : Property → Option ℚ
  | .mk _ _ d _ _ _ _ _ _ _ => d

def Property.string_value : Property → Option String
  | .mk _ _ _ s _ _ _ _ _ _ => s

def Property.blob_value : Property → Option (List Nat)
  | .mk _ _ _ _ bl _ _ _ _ _ => bl

def Property.timestamp_microseconds_value : Property → Option ℤ
  | .mk _ _ _ _ _ t _ _ _ _ => t

def Property.key_value : Property → Option KeyProto
  | .mk _ _ _ _ _ _ k _ _ _ => k

def Property.entity_value : Property → Option (List (String × Property))
  | .mk _ _ _ _ _ _ _ e _ _ => e

def Property.list_value : Property → Option (List Property)
  | .mk _ _ _ _ _ _ _ _ l _ => l

def Property.indexed : Property → Option Bool
  | .mk _ _ _ _ _ _ _ _ _ ix => ix

def pEmpty : Property := .mk none none none none none none none none none none

def pBool (b : Bool) : Property := .mk (some b) none none none none none none none none none

def pInteger (q : ℚ) : Property := .mk none (some q) none none none none none none none none

def pDouble (q : ℚ) : Property := .mk none none (some q) none none none none none none none

def pString (s : String) : Property := .mk none none none (some s) none none none none none none

def pBlob (bs : List Nat) : Property := .mk none none none none (some bs) none none none none none

def pTimestamp (t : ℤ) : Property := .mk none none none none none (some t) none none none none

def pKey (kp : KeyProto) : Property := .mk none none none none none none (some kp) none none none

/-- Nested entity encoding also sets `indexed = false`. -/
def pEntity (entries : List (String × Property)) : Property :=
  .mk none none none none none none none (some entries) none (some false)

def pList (ps : List Property) : Property := .mk none none none none none none none none (some ps) none

/-- A native value, the tagged union the codec dispatches on via
`typeof`/`instanceof`; `vUndefined` is JavaScript `undefined`. -/
inductive NativeValue : Type where
  | vBool (b : Bool)
  | vInt (q : ℚ)
  | vDouble (q : ℚ)
  | vNum (q : ℚ)
  | vDate (t : ℤ)
  | vStr (s : String)
  | vBlob (bs : List Nat)
  | vList (l : List NativeValue)
  | vKey (k : KeyStruct)
  | vEntity (fields : List (String × NativeValue))
  | vUndefined

/-- Truncation toward zero, as `parseInt(x.toString(), 10)` performs on a
JavaScript number, and as `Date` applies to a fractional millisecond count. -/
def ratTruncZ (q : ℚ) : ℤ := if 0 ≤ q then ⌊q⌋ else ⌈q⌉

def ratTrunc (q : ℚ) : ℚ := (ratTruncZ q : ℚ)

/-- JavaScript `v % 1 === 0`: the number has zero fractional part. -/
def fracZero (q : ℚ) : Bool := q.den == 1

mutual

/-- `valueToProperty`: dispatch on the native value's runtime tag, in the
source's order (boolean, Int, Double, plain number, Date, string, Buffer,
Array, Key, non-empty object); anything else — including an empty object and
`undefined` — throws the unsupported-value error. -/
def valueToProperty : NativeValue → Except String Property
  | .vBool b => .ok (pBool b)
  | .vInt q => .ok (pInteger q)
  | .vDouble q => .ok (pDouble q)
  | .vNum q => .ok (if fracZero q then pInteger q else pDouble q)
  | .vDate t => .ok (pTimestamp (t * 1000))
  | .vStr s => .ok (pString s)
  | .vBlob bs => .ok (pBlob bs)
  | .vList l => do
      let ps ← valueListToProps l
      .ok (pList ps)
  | .vKey k => do
      let kp ← keyToKeyProto k
      .ok (pKey kp)
  | .vEntity fields =>
      if fields.isEmpty then .error "Unsupported field value is provided."
      else do
        let ps ← entityFieldsToProps fields
        .ok (pEntity ps)
  | .vUndefined => .error "Unsupported field value is provided."

def valueListToProps : List NativeValue → Except String (List Property)
  | [] => .ok []
  | v :: vs => do
      let p ← valueToProperty v
      let ps ← valueListToProps vs
      .ok (p :: ps)

def entityFieldsToProps : List (String × NativeValue) → Except String (List (String × Property))
  | [] => .ok []
  | (n, v) :: rest => do
      let p ← valueToProperty v
      let ps ← entityFieldsToProps rest
      .ok ((n, p) :: ps)

end

/-- JavaScript object assignment `acc[name] = v` on an association-list model
of an object: replace in place when the name exists, else append. -/
def jsAssign (acc : List (String × NativeValue)) (n : String) (v : NativeValue) :
    List (String × NativeValue) :=
  match acc with
  | [] => [(n, v)]
  | (m, w) :: rest => if m = n then (m, v) :: rest else (m, w) :: jsAssign rest n v

mutual

/-- `propertyToValue`: checks the fields in the fixed order integer, double,
string, blob, timestamp, key, entity, boolean, list; converts the first one
present; yields `undefined` when none is. -/
def propertyToValue : Property → Except String NativeValue
  | .mk bv iv dv sv blv tv kv ev lv _ =>
      match iv with
      | some q => .ok (.vNum (ratTrunc q))
      | none =>
      match dv with
      | some q => .ok (.vNum q)
      | none =>
      match sv with
      | some s => .ok (.vStr s)
      | none =>
      match blv with
      | some bs => .ok (.vBlob bs)
      | none =>
      match tv with
      | some micro => .ok (.vDate (ratTruncZ ((micro : ℚ) / 1000)))
      | none =>
      match kv with
      | some kp => do
          let k ← keyFromKeyProto kp
          .ok (.vKey k)
      | none =>
      match ev with
      | some entries => do
          let fields ← entityProtoFields [] entries
          .ok (.vEntity fields)
      | none =>
      match bv with
      | some b => .ok (.vBool b)
      | none =>
      match lv with
      | some ps => do
          let vs ← propListToValues ps
          .ok (.vList vs)
      | none => .ok .vUndefined

def propListToValues : List Property → Except String (List NativeValue)
  | [] => .ok []
  | p :: ps => do
      let v ← propertyToValue p
      let vs ← propListToValues ps
      .ok (v :: vs)

/-- The `reduce` of `entityFromEntityProto`: `acc[property.name] =
propertyToValue(property.value)` over the property list. -/
def entityProtoFields (acc : List (String × NativeValue)) :
    List (String × Property) → Except String (List (String × NativeValue))
  | [] => .ok acc
  | (n, p) :: rest => do
      let v ← propertyToValue p
      entityProtoFields (jsAssign acc n v) rest

end

/-- `entityFromEntityProto`, on the property list of an entity proto. -/
def entityFromEntityProto (property : List (String × Property)) :
    Except String (List (String × NativeValue)) :=
  entityProtoFields [] property

/-- The composition `propertyToValue(valueToProperty(v))`. -/
def roundTrip (v : NativeValue) : Except String NativeValue :=
  (valueToProperty v).bind propertyToValue

mutual

/-- The observable residue of a round trip: `Int` and `Double` wrappers decode
to plain numbers carrying the same payload; everything else keeps its shape. -/
def unwrap : NativeValue → NativeValue
  | .vBool b => .vBool b
  | .vInt q => .vNum q
  | .vDouble q => .vNum q
  | .vNum q => .vNum q
  | .vDate t => .vDate t
  | .vStr s => .vStr s
  | .vBlob bs => .vBlob bs
  | .vList l => .vList (unwrapList l)
  | .vKey k => .vKey k
  | .vEntity fs => .vEntity (unwrapFields fs)
  | .vUndefined => .vUndefined

def unwrapList : List NativeValue → List NativeValue
  | [] => []
  | v :: vs => unwrap v :: unwrapList vs

def unwrapFields : List (String × NativeValue) → List (String × NativeValue)
  | [] => []
  | (n, v) :: rest => (n, unwrap v) :: unwrapFields rest

end

def nodupNames : List String → Bool
  | [] => true
  | n :: ns => !ns.contains n && nodupNames ns

/-- At most one identifier per key level, and truthy when present. -/
def identOkOf (name : Option String) (id : Option ℚ) : Bool :=
  match name, id with
  | none, none => true
  | some s, none => decide (s ≠ "")
  | none, some q => decide (q ≠ 0)
  | some _, some _ => false

/-- Well-formedness of a key level chain: namespace `ns` on every level, at
most one truthy identifier per level, an identifier on every ancestor
(non-terminal) level, and a string kind at the root. -/
def wfKeyAux (ns : Option String) : KeyStruct → Bool → Bool
  | .mk kns kind id name parent, terminal =>
      decide (kns = ns) && identOkOf name id &&
      (terminal || id.isSome || name.isSome) &&
      (match parent with
       | none => isStr kind
       | some p => wfKeyAux ns p false)

/-- Well-formedness of a key for the round trip. -/
def wfKey (k : KeyStruct) : Bool :=
  decide (k.nameSpace ≠ some "") && wfKeyAux k.nameSpace k true

mutual

/-- Values on which the round trip is well defined: no `undefined`, `Int`
wrappers hold integral payloads, keys are well formed, records are non-empty
with pairwise distinct field names. -/
def wfVal : NativeValue → Bool
  | .vBool _ => true
  | .vInt q => q.den == 1
  | .vDouble _ => true
  | .vNum _ => true
  | .vDate _ => true
  | .vStr _ => true
  | .vBlob _ => true
  | .vList l => wfValList l
  | .vKey k => wfKey k
  | .vEntity fs => !fs.isEmpty && nodupNames (fs.map Prod.fst) && wfValFields fs
  | .vUndefined => false

def wfValList : List NativeValue → Bool
  | [] => true
  | v :: vs => wfVal v && wfValList vs

def wfValFields : List (String × NativeValue) → Bool
  | [] => true
  | (_, v) :: rest => wfVal v && wfValFields rest

end

/-- `OP_TO_OPERATOR`: lookup is plain indexing; an unknown op yields
`undefined`, not an error. -/
def OP_TO_OPERATOR : String → Option String
  | "=" => some "EQUAL"
  | ">" => some "GREATER_THAN"
  | ">=" => some "GREATER_THAN_OR_EQUAL"
  | "<" => some "LESS_THAN"
  | "<=" => some "LESS_THAN_OR_EQUAL"
  | "HAS_ANCESTOR" => some "HAS_ANCESTOR"
  | _ => none

/-- `SIGN_TO_ORDER`: same lookup convention. -/
def SIGN_TO_ORDER : String → Option String
  | "-" => some "DESCENDING"
  | "+" => some "ASCENDING"
  | _ => none

structure QFilter : Type where
  name : String
  op : String
  val : NativeValue

structure QOrder : Type where
  name : String
  sign : String
deriving DecidableEq, Repr

/-- A query description, the argument shape of `queryToQueryProto`. -/
structure QueryDesc : Type where
  kinds : List String
  filters : List QFilter
  orders : List QOrder
  groupByVal : List String
  selectVal : List String
  startVal : Option String
  endVal : Option String
  limitVal : ℤ
  offsetVal : ℤ

/-- `{ name }` wrapper used for kinds, projections and group-by entries. -/
structure NameEntry : Type where
  name : String
deriving DecidableEq, Repr

/-- A compiled `property_filter`: `property: { name }`, an operator slot that
may be `undefined`, and a property-shaped value. -/
structure PropertyFilter : Type where
  name : String
  operator : Option String
  value : Property

structure CompositeFilter : Type where
  filter : List PropertyFilter
  operator : String

/-- A compiled order entry: `property: { name }` and a direction slot that
may be `undefined`. -/
structure OrderProto : Type where
  name : String
  direction : Option String
deriving DecidableEq, Repr

/-- The compiled query.  Cursor fields keep the base64 text; the base64
decoding to bytes is opaque to this core. -/
structure QueryProto : Type where
  projection : List NameEntry
  kind : List NameEntry
  filter : Option CompositeFilter
  order : List OrderProto
  group_by : List NameEntry
  start_cursor : Option String
  end_cursor : Option String
  offset : Option ℤ
  limit : Option ℤ

/-- The `val` a filter compiles to: the reserved `__key__` field compiles its
value through `keyToKeyProto` (a non-key value there throws, as reading
`.path` of a non-key does in JavaScript); any other field goes through
`valueToProperty`.  The filter's op plays no part here. -/
def filterValue (f : QFilter) : Except String Property :=
  if f.name = "__key__" then
    match f.val with
    | .vKey k => do
        let kp ← keyToKeyProto k
        pure (pKey kp)
    | _ => Except.error "TypeError: cannot read path of a non-key value"
  else
    valueToProperty f.val

/-- One filter compiled to a `property_filter`; the operator is the plain
table lookup, which yields `undefined` for an unknown op. -/
def filterToProto (f : QFilter) : Except String PropertyFilter := do
  let val ← filterValue f
  .ok { name := f.name, operator := OP_TO_OPERATOR f.op, value := val }

def mapFilters : List QFilter → Except String (List PropertyFilter)
  | [] => .ok []
  | f :: fs => do
      let p ← filterToProto f
      let ps ← mapFilters fs
      .ok (p :: ps)

/-- `queryToQueryProto`. -/
def queryToQueryProto (q : QueryDesc) : Except String QueryProto := do
  let filter ←
    if q.filters.isEmpty then pure none
    else do
      let fs ← mapFilters q.filters
      pure (some ({ filter := fs, operator := "AND" } : CompositeFilter))
  .ok {
    projection := q.selectVal.map (fun v => { name := v }),
    kind := q.kinds.map (fun k => { name := k }),
    filter := filter,
    order := q.orders.map (fun o => { name := o.name, direction := SIGN_TO_ORDER o.sign }),
    group_by := q.groupByVal.map (fun g => { name := g }),
    start_cursor := q.startVal.bind (fun s => if s = "" then none else some s),
    end_cursor := q.endVal.bind (fun s => if s = "" then none else some s),
    offset := if q.offsetVal > 0 then some q.offsetVal else none,
    limit := if q.limitVal > 0 then some q.limitVal else none }

/-! ### Specification-side structural views of a key

The conversion functions above walk the flat derived path; the definitions
below describe the same data by structural recursion on the key, so the
theorems relate the list walk to the key's recursive structure. -/

/-- The kind of the root ancestor — the first element of the derived path. -/
def rootKind : KeyStruct → PVal
  | .mk _ kind _ _ parent =>
      match parent with
      | none => kind
      | some p => rootKind p

/-- Some level of the key's chain (the key itself included) has a falsy
`name || id` slot. -/
def chainAnyGap : KeyStruct → Bool
  | .mk _ _ id name parent =>
      !truthy (nameOrIdOf name id) ||
      (match parent with
       | none => false
       | some p => chainAnyGap p)

/-- Some proper ancestor of the key has a falsy `name || id` slot. -/
def hasAncestorGap : KeyStruct → Bool
  | .mk _ _ _ _ parent =>
      match parent with
      | none => false
      | some p => chainAnyGap p

/-- Every level of the chain has a truthy kind. -/
def allKindsTruthy : KeyStruct → Bool
  | .mk _ kind _ _ parent =>
      truthy kind &&
      (match parent with
       | none => true
       | some p => allKindsTruthy p)

/-- Every level of the chain has a truthy `name || id` slot. -/
def allIdentsTruthy : KeyStruct → Bool
  | .mk _ _ id name parent =>
      truthy (nameOrIdOf name id) &&
      (match parent with
       | none => true
       | some p => allIdentsTruthy p)

/-- The protocol element a stride-2 group `[kind, slot]` produces: a truthy
numeric slot becomes `id`, a truthy string slot becomes `name`, a falsy slot
produces neither. -/
def groupOfPair (k v : PVal) : PathElem :=
  match v with
  | .num q => if q = 0 then { kind := k } else { kind := k, id := some (.num q) }
  | .str s => if s = "" then { kind := k } else { kind := k, name := some s }
  | .undefined => { kind := k }

/-- The protocol element of one key level. -/
def groupOf (k : KeyStruct) : PathElem :=
  groupOfPair k.kind (nameOrId k)

/-- The protocol elements of the whole chain, root first. -/
def protoGroups : KeyStruct → List PathElem
  | .mk ns kind id name parent =>
      (match parent with
       | none => []
       | some p => protoGroups p) ++ [groupOf (.mk ns kind id name parent)]

/-- The namespace as emitted: only a truthy namespace survives. -/
def nsTruthy : Option String → Option String
  | some s => if s = "" then none else some s
  | none => none

/-! ### Pair-structured list helpers for the stride-2 walks -/

/-- The list has even length, viewed two elements at a time. -/
def pairList : List PVal → Bool
  | [] => true
  | [_] => false
  | _ :: _ :: rest => pairList rest

/-- The groups of a pair-structured prefix. -/
def headGroups : List PVal → List PathElem
  | [] => []
  | [_] => []
  | k :: v :: rest => groupOfPair k v :: headGroups rest

/-- Some identifier slot of a pair-structured prefix is falsy. -/
def anyFalsySlot : List PVal → Bool
  | [] => false
  | [_] => false
  | _ :: v :: rest => !truthy v || anyFalsySlot rest

/-- The path `keyFromKeyProto` accumulates: kind and identifier of every
level, except that a falsy identifier of the terminal level is dropped. -/
def cleanPath (k : KeyStruct) : List PVal :=
  (match k.parent with
   | none => []
   | some p => keyPathElems p) ++
  (k.kind :: (if truthy (nameOrId k) then [nameOrId k] else []))

/-- Identifier slots of a reversed path are numbers, non-empty strings or
`undefined`: exactly the slots the `Key` constructor reproduces verbatim. -/
def slotOk : PVal → Bool
  | .num _ => true
  | .str s => decide (s ≠ "")
  | .undefined => true

def wfSlotsRev : List PVal → Bool
  | [] => true
  | [_] => true
  | idv :: _ :: rest => slotOk idv && wfSlotsRev rest

/-- Identifier slots of a path (in derivation order) are reproducible. -/
def pathSlotsOk (p : List PVal) : Bool :=
  wfSlotsRev p.reverse

/-- The path slots `keyFromKeyProto` accumulates for a prefix of elements
that all have truthy identifiers. -/
def decodeHeads : List PathElem → List PVal
  | [] => []
  | g :: rest => g.kind :: elemIdent g :: decodeHeads rest

/-- The kind the `Key` constructor pops from a path: the second-to-last
element when the length is even, the last element when odd, `undefined` when
exhausted. -/
def poppedKind (p : List PVal) : PVal :=
  if p.length % 2 == 0 then
    match p.reverse with
    | _ :: k :: _ => k
    | _ => .undefined
  else
    match p.reverse with
    | k :: _ => k
    | _ => .undefined

/-! ### Lemmas: the derived path and the stride-2 encode walk -/

theorem keyPathElems_ne_nil (k : KeyStruct) : keyPathElems k ≠ [] := by
  cases k with
  | mk ns kind id name parent => cases parent <;> simp [keyPathElems]

theorem pairList_append_pair : ∀ (xs : List PVal) (a b : PVal), pairList xs = true →
    pairList (xs ++ [a, b]) = true
  | [], _, _, _ => rfl
  | [_], _, _, h => by simp [pairList] at h
  | _ :: _ :: rest, a, b, h => by
      simpa [pairList] using pairList_append_pair rest a b (by simpa [pairList] using h)

theorem keyPathElems_pairList : ∀ (k : KeyStruct), pairList (keyPathElems k) = true
  | .mk _ _ _ _ none => rfl
  | .mk _ _ _ _ (some p) => by
      simpa [keyPathElems] using
        pairList_append_pair (keyPathElems p) _ _ (keyPathElems_pairList p)

theorem headGroups_append_pair : ∀ (xs : List PVal) (a b : PVal), pairList xs = true →
    headGroups (xs ++ [a, b]) = headGroups xs ++ [groupOfPair a b]
  | [], _, _, _ => rfl
  | [_], _, _, h => by simp [pairList] at h
  | x :: y :: rest, a, b, h => by
      simp [headGroups]
      exact headGroups_append_pair rest a b (by simpa [pairList] using h)

theorem anyFalsySlot_append_pair : ∀ (xs : List PVal) (a b : PVal), pairList xs = true →
    anyFalsySlot (xs ++ [a, b]) = (anyFalsySlot xs || !truthy b)
  | [], _, _, _ => by simp [anyFalsySlot]
  | [_], _, _, h => by simp [pairList] at h
  | x :: y :: rest, a, b, h => by
      simp [anyFalsySlot, anyFalsySlot_append_pair rest a b (by simpa [pairList] using h),
        Bool.or_assoc]

theorem protoPath_cons_cons (k v : PVal) (rest : List PVal) :
    protoPath (k :: v :: rest) =
      if truthy v || rest.isEmpty then
        (protoPath rest).map (fun ps => groupOfPair k v :: ps)
      else .error "Invalid key. Ancestor keys require an id or name." := by
  have hmap : ∀ (x : Except String (List PathElem)) (g : PathElem),
      (do
        let ps ← x
        Except.ok (g :: ps)) = x.map (fun ps => g :: ps) := by
    intro x g; cases x <;> rfl
  cases v with
  | num q =>
      by_cases hq : q = 0
      · cases rest with
        | nil => simp [protoPath, truthy, hq, groupOfPair, hmap]
        | cons r rs =>
            simp [protoPath, truthy, hq, groupOfPair]
            rfl
      · simp [protoPath, truthy, hq, groupOfPair, hmap]
  | str s =>
      by_cases hs : s = ""
      · cases rest with
        | nil => simp [protoPath, truthy, hs, groupOfPair, hmap]
        | cons r rs =>
            simp [protoPath, truthy, hs, groupOfPair]
            rfl
      · simp [protoPath, truthy, hs, groupOfPair, hmap]
  | undefined =>
      cases rest with
      | nil => simp [protoPath, truthy, groupOfPair, hmap]
      | cons r rs =>
          simp [protoPath, truthy, groupOfPair]
          rfl

theorem protoPath_append_pair : ∀ (xs : List PVal) (a b : PVal), pairList xs = true →
    protoPath (xs ++ [a, b]) =
      if anyFalsySlot xs then .error "Invalid key. Ancestor keys require an id or name."
      else .ok (headGroups xs ++ [groupOfPair a b])
  | [], a, b, _ => by
      rw [List.nil_append, protoPath_cons_cons]
      simp [anyFalsySlot, headGroups, protoPath]
      rfl
  | [_], _, _, h => by simp [pairList] at h
  | x :: y :: rest, a, b, h => by
      have ih := protoPath_append_pair rest a b (by simpa [pairList] using h)
      rw [List.cons_append, List.cons_append, protoPath_cons_cons]
      by_cases hy : truthy y
      · simp only [hy, Bool.true_or, if_true, ih, anyFalsySlot, headGroups]
        by_cases hg : anyFalsySlot rest <;> simp [hg, Except.map]
      · simp [hy, anyFalsySlot, headGroups]

theorem headGroups_keyPath : ∀ (k : KeyStruct), headGroups (keyPathElems k) = protoGroups k
  | .mk ns kind id name none => rfl
  | .mk ns kind id name (some p) => by
      simp only [keyPathElems, protoGroups]
      rw [headGroups_append_pair _ _ _ (keyPathElems_pairList p), headGroups_keyPath p]
      rfl

theorem anyFalsySlot_keyPath : ∀ (k : KeyStruct), anyFalsySlot (keyPathElems k) = chainAnyGap k
  | .mk ns kind id name none => by
      simp [keyPathElems, chainAnyGap, anyFalsySlot]
  | .mk ns kind id name (some p) => by
      simp only [keyPathElems, chainAnyGap]
      rw [anyFalsySlot_append_pair _ _ _ (keyPathElems_pairList p), anyFalsySlot_keyPath p]
      exact Bool.or_comm _ _

theorem protoPath_keyPath (k : KeyStruct) :
    protoPath (keyPathElems k) =
      if hasAncestorGap k then .error "Invalid key. Ancestor keys require an id or name."
      else .ok (protoGroups k) := by
  cases k with
  | mk ns kind id name parent =>
      cases parent with
      | none =>
          simp only [keyPathElems, hasAncestorGap, List.nil_append, protoPath_cons_cons,
            protoGroups]
          simp [protoPath]
          rfl
      | some p =>
          simp only [keyPathElems, hasAncestorGap, protoGroups]
          rw [protoPath_append_pair _ _ _ (keyPathElems_pairList p),
            anyFalsySlot_keyPath p, headGroups_keyPath p]
          rfl

theorem keyPathElems_head : ∀ (k : KeyStruct), (keyPathElems k).head? = some (rootKind k)
  | .mk ns kind id name none => rfl
  | .mk ns kind id name (some p) => by
      simp only [keyPathElems, rootKind]
      obtain ⟨x, xs, hx⟩ := List.exists_cons_of_ne_nil (keyPathElems_ne_nil p)
      have := keyPathElems_head p
      rw [hx] at this ⊢
      simpa using this

theorem nameSpace_bind_nsTruthy (o : Option String) :
    o.bind (fun s => if s = "" then none else some s) = nsTruthy o := by
  cases o <;> rfl

/-- The central characterization of `keyToKeyProto` by structural recursion
on the key: the malformed-key error occurs exactly for a non-string root
kind or a falsy ancestor identifier slot, and on success the proto carries
one group per level plus a truthy-filtered namespace. -/
theorem keyToKeyProto_eq (k : KeyStruct) :
    keyToKeyProto k =
      if isStr (rootKind k) then
        if hasAncestorGap k then .error "Invalid key. Ancestor keys require an id or name."
        else .ok { path_element := protoGroups k, partition_id := nsTruthy k.nameSpace }
      else .error "A key should contain at least a kind." := by
  unfold keyToKeyProto
  rw [keyPathElems_head k]
  cases hr : rootKind k with
  | str s =>
      simp only [isStr, if_true]
      rw [protoPath_keyPath k]
      by_cases hg : hasAncestorGap k
      · simp [hg]
        rfl
      · simp [hg, nameSpace_bind_nsTruthy]
        rfl
  | num q => simp [isStr]
  | undefined => simp [isStr]

/-- The completeness check of one emitted group in terms of the level's own
kind and `name || id` slot. -/
theorem groupOfPair_complete (a b : PVal) :
    (truthy (groupOfPair a b).kind &&
      (idTruthy (groupOfPair a b).id || nameTruthy (groupOfPair a b).name)) =
    (truthy a && truthy b) := by
  cases b with
  | num q => by_cases hq : q = 0 <;> simp [groupOfPair, hq, idTruthy, nameTruthy, truthy]
  | str s => by_cases hs : s = "" <;> simp [groupOfPair, hs, idTruthy, nameTruthy, truthy]
  | undefined => simp [groupOfPair, idTruthy, nameTruthy, truthy]

theorem protoGroups_all_complete : ∀ (k : KeyStruct),
    ((protoGroups k).all (fun p => truthy p.kind && (idTruthy p.id || nameTruthy p.name))) =
      (allKindsTruthy k && allIdentsTruthy k)
  | .mk ns kind id name none => by
      simp only [protoGroups, allKindsTruthy, allIdentsTruthy, List.all_nil, List.all_cons,
        List.nil_append, List.all_eq_true]
      simpa [groupOf, nameOrId] using
        groupOfPair_complete kind (nameOrIdOf name id)
  | .mk ns kind id name (some p) => by
      simp only [protoGroups, allKindsTruthy, allIdentsTruthy, List.all_append, List.all_cons,
        List.all_nil, Bool.and_true]
      rw [protoGroups_all_complete p]
      have hg : (truthy (groupOf (KeyStruct.mk ns kind id name (some p))).kind &&
          (idTruthy (groupOf (KeyStruct.mk ns kind id name (some p))).id ||
            nameTruthy (groupOf (KeyStruct.mk ns kind id name (some p))).name)) =
          (truthy kind && truthy (nameOrIdOf name id)) := by
        simpa [groupOf, nameOrId] using groupOfPair_complete kind (nameOrIdOf name id)
      rw [hg]
      cases truthy kind <;> cases truthy (nameOrIdOf name id) <;>
        cases allKindsTruthy p <;> cases allIdentsTruthy p <;> rfl

/-- `isKeyComplete` characterized structurally: it propagates the two
conversion errors and otherwise answers whether every level has a truthy
kind and a truthy identifier. -/
theorem isKeyComplete_eq (k : KeyStruct) :
    isKeyComplete k =
      if isStr (rootKind k) then
        if hasAncestorGap k then .error "Invalid key. Ancestor keys require an id or name."
        else .ok (allKindsTruthy k && allIdentsTruthy k)
      else .error "A key should contain at least a kind." := by
  unfold isKeyComplete
  rw [keyToKeyProto_eq k]
  by_cases hs : isStr (rootKind k)
  · by_cases hg : hasAncestorGap k
    · simp [hs, hg]
      rfl
    · simp [hs, hg]
      rw [← protoGroups_all_complete k]
      rfl
  · simp [hs]
    rfl

/-! ### Lemmas: the decode walk and rebuilding the key -/

theorem truthy_undef : truthy .undefined = false := rfl

theorem groupOfPair_kind (a b : PVal) : (groupOfPair a b).kind = a := by
  cases b with
  | num q => by_cases hq : q = 0 <;> simp [groupOfPair, hq]
  | str s => by_cases hs : s = "" <;> simp [groupOfPair, hs]
  | undefined => rfl

theorem elemIdent_groupOfPair (a b : PVal) :
    elemIdent (groupOfPair a b) = if truthy b then b else .undefined := by
  cases b with
  | num q =>
      by_cases hq : q = 0 <;>
        simp [groupOfPair, elemIdent, jsNumber, truthy, hq, nameSlot]
  | str s =>
      by_cases hs : s = "" <;>
        simp [groupOfPair, elemIdent, jsNumber, truthy, hs, nameSlot]
  | undefined => simp [groupOfPair, elemIdent, jsNumber, truthy, nameSlot]

theorem protoToPath_single (g : PathElem) :
    protoToPath [g] =
      .ok (if truthy (elemIdent g) then [g.kind, elemIdent g] else [g.kind]) := rfl

theorem protoToPath_append : ∀ (gs hs : List PathElem),
    (∀ g ∈ gs, truthy (elemIdent g) = true) → hs ≠ [] →
    protoToPath (gs ++ hs) = (protoToPath hs).map (fun tl => decodeHeads gs ++ tl)
  | [], hs, _, _ => by
      cases hp : protoToPath hs <;> simp [hp, decodeHeads, Except.map]
  | g :: gs, hs, htr, hhs => by
      have hg : truthy (elemIdent g) = true := htr g (by simp)
      have hne : gs ++ hs ≠ [] := by
        simp only [ne_eq, List.append_eq_nil]
        rintro ⟨-, h⟩
        exact hhs h
      obtain ⟨x, xs, hx⟩ := List.exists_cons_of_ne_nil hne
      have ih := protoToPath_append gs hs (fun a ha => htr a (by simp [ha])) hhs
      simp only [List.cons_append]
      rw [show protoToPath (g :: (gs ++ hs)) =
          (let idv := elemIdent g;
           if truthy idv then do
             let tl ← protoToPath (gs ++ hs)
             Except.ok (g.kind :: idv :: tl)
           else Except.error "Invalid key. Ancestor keys require an id or name.") from by
        rw [hx]; rfl]
      simp only [hg, if_true]
      rw [ih]
      cases protoToPath hs <;> rfl

theorem decodeHeads_append (xs ys : List PathElem) :
    decodeHeads (xs ++ ys) = decodeHeads xs ++ decodeHeads ys := by
  induction xs with
  | nil => rfl
  | cons g gs ih => simp [decodeHeads, ih]

theorem chainAnyGap_not_allIdents : ∀ (k : KeyStruct),
    chainAnyGap k = !allIdentsTruthy k
  | .mk ns kind id name none => by
      simp [chainAnyGap, allIdentsTruthy]
  | .mk ns kind id name (some p) => by
      simp [chainAnyGap, allIdentsTruthy, chainAnyGap_not_allIdents p]

theorem allIdents_groupOf_truthy : ∀ (k : KeyStruct), allIdentsTruthy k = true →
    ∀ g ∈ protoGroups k, truthy (elemIdent g) = true
  | .mk ns kind id name none, h, g, hg => by
      simp only [protoGroups, List.nil_append, List.mem_singleton] at hg
      simp only [allIdentsTruthy, Bool.and_true] at h
      subst hg
      simp [groupOf, nameOrId, elemIdent_groupOfPair, h, KeyStruct.name, KeyStruct.id,
        KeyStruct.kind]
  | .mk ns kind id name (some p), h, g, hg => by
      simp only [allIdentsTruthy] at h
      have h1 := (Bool.and_eq_true _ _).mp h
      simp only [protoGroups, List.mem_append, List.mem_singleton] at hg
      cases hg with
      | inl hmem => exact allIdents_groupOf_truthy p h1.2 g hmem
      | inr heq =>
          subst heq
          simp [groupOf, nameOrId, elemIdent_groupOfPair, h1.1, KeyStruct.name, KeyStruct.id,
            KeyStruct.kind]

theorem decodeHeads_protoGroups : ∀ (k : KeyStruct), allIdentsTruthy k = true →
    decodeHeads (protoGroups k) = keyPathElems k
  | .mk ns kind id name none, h => by
      simp only [allIdentsTruthy, Bool.and_true] at h
      simp [protoGroups, decodeHeads, keyPathElems, groupOf, nameOrId,
        elemIdent_groupOfPair, h, groupOfPair_kind, KeyStruct.name, KeyStruct.id,
        KeyStruct.kind]
  | .mk ns kind id name (some p), h => by
      simp only [allIdentsTruthy] at h
      have h1 := (Bool.and_eq_true _ _).mp h
      simp only [protoGroups, keyPathElems, decodeHeads_append,
        decodeHeads_protoGroups p h1.2]
      simp [decodeHeads, groupOf, nameOrId, elemIdent_groupOfPair, h1.1, groupOfPair_kind,
        KeyStruct.name, KeyStruct.id, KeyStruct.kind]

theorem protoToPath_protoGroups (k : KeyStruct) (h : hasAncestorGap k = false) :
    protoToPath (protoGroups k) = .ok (cleanPath k) := by
  cases k with
  | mk ns kind id name parent =>
      cases parent with
      | none =>
          simp only [protoGroups, List.nil_append, protoToPath_single, cleanPath,
            KeyStruct.parent]
          simp [groupOf, nameOrId, elemIdent_groupOfPair, groupOfPair_kind, KeyStruct.name,
            KeyStruct.id, KeyStruct.kind]
          by_cases ht : truthy (nameOrIdOf name id) <;> simp [ht, truthy_undef]
      | some p =>
          have hpg : allIdentsTruthy p = true := by
            simp only [hasAncestorGap] at h
            rw [chainAnyGap_not_allIdents p] at h
            simpa using h
          simp only [protoGroups]
          rw [protoToPath_append (protoGroups p) [groupOf (.mk ns kind id name (some p))]
            (allIdents_groupOf_truthy p hpg) (by simp)]
          rw [protoToPath_single, decodeHeads_protoGroups p hpg]
          simp only [Except.map, cleanPath, KeyStruct.parent]
          simp [groupOf, nameOrId, elemIdent_groupOfPair, groupOfPair_kind, KeyStruct.name,
            KeyStruct.id, KeyStruct.kind]
          by_cases ht : truthy (nameOrIdOf name id) <;> simp [ht, truthy_undef]

theorem keyPathElems_length_even : ∀ (k : KeyStruct), (keyPathElems k).length % 2 = 0
  | .mk ns kind id name none => by simp [keyPathElems]
  | .mk ns kind id name (some p) => by
      have := keyPathElems_length_even p
      simp only [keyPathElems, List.length_append, List.length_cons, List.length_nil]
      omega

theorem identOk_truthy (name : Option String) (id : Option ℚ)
    (h : identOkOf name id = true) (hp : (id.isSome || name.isSome) = true) :
    truthy (nameOrIdOf name id) = true := by
  cases name with
  | some s =>
      cases id with
      | some q => simp [identOkOf] at h
      | none =>
          simp only [identOkOf, decide_eq_true_eq] at h
          simp [nameOrIdOf, h, truthy]
  | none =>
      cases id with
      | some q =>
          simp only [identOkOf, decide_eq_true_eq] at h
          simp [nameOrIdOf, idSlot, truthy, h]
      | none => simp at hp

theorem identOk_falsy (name : Option String) (id : Option ℚ)
    (h : identOkOf name id = true) (hf : truthy (nameOrIdOf name id) = false) :
    name = none ∧ id = none := by
  cases name <;> cases id <;> simp_all [identOkOf, nameOrIdOf, idSlot, truthy]

theorem identParts_nameOrId (name : Option String) (id : Option ℚ)
    (h : identOkOf name id = true) :
    identParts (nameOrIdOf name id) = (id, name) := by
  cases name <;> cases id <;> simp_all [identOkOf, nameOrIdOf, idSlot, identParts]

theorem wfKeyAux_false_true (ns : Option String) (k : KeyStruct)
    (h : wfKeyAux ns k false = true) : wfKeyAux ns k true = true := by
  cases k with
  | mk kns kind id name parent =>
      cases parent <;>
      · simp only [wfKeyAux, Bool.and_eq_true] at h ⊢
        exact ⟨⟨⟨h.1.1.1, h.1.1.2⟩, by simp⟩, h.2⟩

theorem wfKeyAux_allIdents (ns : Option String) : ∀ (k : KeyStruct),
    wfKeyAux ns k false = true → allIdentsTruthy k = true
  | .mk kns kind id name none, h => by
      simp only [wfKeyAux, Bool.and_eq_true, Bool.false_or] at h
      simp only [allIdentsTruthy, Bool.and_true]
      exact identOk_truthy name id h.1.1.2 h.1.2
  | .mk kns kind id name (some p), h => by
      simp only [wfKeyAux, Bool.and_eq_true, Bool.false_or] at h
      simp only [allIdentsTruthy, Bool.and_eq_true]
      exact ⟨identOk_truthy name id h.1.1.2 h.1.2, wfKeyAux_allIdents ns p h.2⟩

theorem wfKeyAux_rootKind (ns : Option String) : ∀ (k : KeyStruct) (b : Bool),
    wfKeyAux ns k b = true → isStr (rootKind k) = true
  | .mk kns kind id name none, b, h => by
      simp only [wfKeyAux, Bool.and_eq_true] at h
      simpa [rootKind] using h.2
  | .mk kns kind id name (some p), b, h => by
      simp only [wfKeyAux, Bool.and_eq_true] at h
      simpa [rootKind] using wfKeyAux_rootKind ns p false h.2

theorem wfKeyAux_noGap (ns : Option String) : ∀ (k : KeyStruct),
    wfKeyAux ns k true = true → hasAncestorGap k = false
  | .mk kns kind id name none, _ => rfl
  | .mk kns kind id name (some p), h => by
      simp only [wfKeyAux, Bool.and_eq_true] at h
      simp only [hasAncestorGap]
      rw [chainAnyGap_not_allIdents p, wfKeyAux_allIdents ns p h.2]
      rfl

theorem buildKey_keyPathElems (ns : Option String) : ∀ (k : KeyStruct),
    wfKeyAux ns k true = true → buildKey ns (keyPathElems k) = k
  | .mk kns kind id name none, h => by
      simp only [wfKeyAux, Bool.and_eq_true, decide_eq_true_eq] at h
      obtain ⟨⟨⟨hns, hio⟩, -⟩, -⟩ := h
      subst hns
      simp only [buildKey, keyPathElems, List.nil_append, List.reverse_cons,
        List.reverse_nil, List.nil_append, List.cons_append]
      show buildKeyRev kns [nameOrIdOf name id, kind] = _
      rw [buildKeyRev]
      simp [identParts_nameOrId name id hio]
  | .mk kns kind id name (some p), h => by
      simp only [wfKeyAux, Bool.and_eq_true, decide_eq_true_eq] at h
      obtain ⟨⟨⟨hns, hio⟩, -⟩, hrest⟩ := h
      subst hns
      simp only [buildKey, keyPathElems, List.reverse_append, List.reverse_cons,
        List.reverse_nil, List.nil_append, List.cons_append]
      show buildKeyRev kns (nameOrIdOf name id :: kind :: (keyPathElems p).reverse) = _
      rw [buildKeyRev]
      have hlen : ((nameOrIdOf name id :: kind :: (keyPathElems p).reverse).length % 2 == 0)
          = true := by
        have := keyPathElems_length_even p
        simp only [List.length_cons, List.length_reverse, Nat.beq_eq_true_eq]
        omega
      rw [hlen]
      simp only [if_true]
      have hne' : (keyPathElems p).reverse ≠ [] := by
        simp [List.reverse_eq_nil_iff, keyPathElems_ne_nil p]
      have hne : ((keyPathElems p).reverse.isEmpty) = false := by
        cases hrev : (keyPathElems p).reverse with
        | nil => exact absurd hrev hne'
        | cons a l => rfl
      rw [hne]
      simp only [Bool.false_eq_true, if_false]
      rw [identParts_nameOrId name id hio]
      have hp : buildKeyRev kns (keyPathElems p).reverse = p :=
        buildKey_keyPathElems kns p (wfKeyAux_false_true kns p hrest)
      rw [hp]

theorem buildKey_cleanPath (ns : Option String) (k : KeyStruct)
    (h : wfKeyAux ns k true = true) : buildKey ns (cleanPath k) = k := by
  cases k with
  | mk kns kind id name parent =>
      by_cases ht : truthy (nameOrIdOf name id) = true
      · have hcp : cleanPath (.mk kns kind id name parent) =
            keyPathElems (.mk kns kind id name parent) := by
          cases parent <;>
            simp [cleanPath, keyPathElems, KeyStruct.parent, KeyStruct.kind, nameOrId,
              KeyStruct.name, KeyStruct.id, ht]
        rw [hcp]
        exact buildKey_keyPathElems ns _ h
      · cases parent with
        | none =>
            simp only [wfKeyAux, Bool.and_eq_true, decide_eq_true_eq] at h
            obtain ⟨⟨⟨hns, hio⟩, -⟩, -⟩ := h
            subst hns
            have hf : truthy (nameOrIdOf name id) = false := by
              simpa using ht
            obtain ⟨hname, hid⟩ := identOk_falsy name id hio hf
            subst hname; subst hid
            simp only [cleanPath, KeyStruct.parent, KeyStruct.kind, nameOrId, KeyStruct.name,
              KeyStruct.id, hf, List.nil_append]
            simp only [Bool.false_eq_true, if_false]
            rfl
        | some p =>
            simp only [wfKeyAux, Bool.and_eq_true, decide_eq_true_eq] at h
            obtain ⟨⟨⟨hns, hio⟩, -⟩, hrest⟩ := h
            subst hns
            have hf : truthy (nameOrIdOf name id) = false := by
              simpa using ht
            obtain ⟨hname, hid⟩ := identOk_falsy name id hio hf
            subst hname; subst hid
            simp only [cleanPath, KeyStruct.parent, KeyStruct.kind, nameOrId, KeyStruct.name,
              KeyStruct.id, hf]
            simp only [Bool.false_eq_true, if_false]
            simp only [buildKey, List.reverse_append, List.reverse_cons, List.reverse_nil,
              List.nil_append, List.cons_append]
            have hne' : (keyPathElems p).reverse ≠ [] := by
              simp [List.reverse_eq_nil_iff, keyPathElems_ne_nil p]
            obtain ⟨x, xs, hx⟩ := List.exists_cons_of_ne_nil hne'
            rw [hx]
            rw [buildKeyRev]
            have hlen : ((kind :: x :: xs).length % 2 == 0) = false := by
              have h1 := keyPathElems_length_even p
              have h2 : (keyPathElems p).length = xs.length + 1 := by
                have := congrArg List.length hx
                simpa using this
              simp only [List.length_cons]
              simp only [Bool.eq_false_iff, ne_eq, Nat.beq_eq_true_eq]
              omega
            rw [hlen]
            simp only [Bool.false_eq_true, if_false]
            have hp : buildKeyRev kns (x :: xs) = p := by
              rw [← hx]
              exact buildKey_keyPathElems kns p (wfKeyAux_false_true kns p hrest)
            rw [hp]

theorem nsTruthy_id (o : Option String) (h : o ≠ some "") : nsTruthy o = o := by
  cases o with
  | none => rfl
  | some s =>
      have : s ≠ "" := fun hs => h (by rw [hs])
      simp [nsTruthy, this]

/-- On a well-formed key, conversion to protocol form succeeds with one group
per level and the truthy-filtered namespace. -/
theorem keyToKeyProto_wf_ok (k : KeyStruct) (h : wfKey k = true) :
    keyToKeyProto k =
      .ok { path_element := protoGroups k, partition_id := nsTruthy k.nameSpace } := by
  simp only [wfKey, Bool.and_eq_true] at h
  rw [keyToKeyProto_eq k, wfKeyAux_rootKind k.nameSpace k true h.2]
  simp [wfKeyAux_noGap k.nameSpace k h.2]

/-- Decoding the protocol form of a well-formed key restores the key. -/
theorem keyFromKeyProto_roundTrip (k : KeyStruct) (h : wfKey k = true) :
    keyFromKeyProto { path_element := protoGroups k, partition_id := nsTruthy k.nameSpace } =
      .ok k := by
  simp only [wfKey, Bool.and_eq_true, decide_eq_true_eq] at h
  obtain ⟨hne, hwf⟩ := h
  unfold keyFromKeyProto
  rw [protoToPath_protoGroups k (wfKeyAux_noGap _ k hwf)]
  simp only [nameSpace_bind_nsTruthy]
  rw [nsTruthy_id _ hne, nsTruthy_id _ hne]
  show Except.ok (buildKey k.nameSpace (cleanPath k)) = Except.ok k
  rw [buildKey_cleanPath k.nameSpace k hwf]

/-! ### Lemmas: the value codec round trip -/

theorem except_bind_ok_inv {α β : Type} (x : Except String α) (f : α → Except String β)
    (r : β) (h : x.bind f = .ok r) : ∃ a, x = .ok a ∧ f a = .ok r := by
  cases x with
  | ok a => exact ⟨a, rfl, h⟩
  | error e => simp [Except.bind] at h

theorem ratTruncZ_intCast (t : ℤ) : ratTruncZ (t : ℚ) = t := by
  unfold ratTruncZ
  by_cases h : (0 : ℚ) ≤ (t : ℚ) <;> simp [h, Int.floor_intCast, Int.ceil_intCast]

theorem ratTrunc_den_one (q : ℚ) (h : q.den = 1) : ratTrunc q = q := by
  have hq : (q.num : ℚ) = q := (Rat.den_eq_one_iff q).mp h
  rw [ratTrunc, ← hq, ratTruncZ_intCast]

theorem date_roundtrip (t : ℤ) : ratTruncZ (((t * 1000 : ℤ) : ℚ) / 1000) = t := by
  have hq : (((t * 1000 : ℤ) : ℚ) / 1000) = (t : ℚ) := by
    push_cast
    exact mul_div_cancel_right₀ _ (by norm_num)
  rw [hq, ratTruncZ_intCast]

theorem jsAssign_not_mem : ∀ (acc : List (String × NativeValue)) (n : String) (v : NativeValue),
    n ∉ acc.map Prod.fst → jsAssign acc n v = acc ++ [(n, v)]
  | [], _, _, _ => rfl
  | (m, w) :: rest, n, v, h => by
      simp only [List.map_cons, List.mem_cons, not_or] at h
      simp only [jsAssign]
      rw [if_neg (fun hmn => h.1 hmn.symm)]
      simp [jsAssign_not_mem rest n v h.2]

mutual

theorem roundTripAux : ∀ (v : NativeValue), wfVal v = true →
    (valueToProperty v).bind propertyToValue = .ok (unwrap v)
  | .vBool b, _ => rfl
  | .vInt q, h => by
      simp only [wfVal, Nat.beq_eq_true_eq] at h
      simp only [valueToProperty, Except.bind, propertyToValue, pInteger, unwrap]
      rw [ratTrunc_den_one q h]
  | .vDouble q, _ => rfl
  | .vNum q, h => by
      by_cases hf : fracZero q = true
      · simp only [valueToProperty, hf, if_true, Except.bind, propertyToValue, pInteger, unwrap]
        rw [ratTrunc_den_one q (by simpa [fracZero] using hf)]
      · simp only [valueToProperty, hf, Bool.false_eq_true, if_false, Except.bind,
          propertyToValue, pDouble, unwrap]
  | .vDate t, _ => by
      simp only [valueToProperty, Except.bind, propertyToValue, pTimestamp, unwrap]
      rw [date_roundtrip t]
  | .vStr s, _ => rfl
  | .vBlob bs, _ => rfl
  | .vList l, h => by
      obtain ⟨ps, henc, hdec⟩ := roundTripList l (by simpa [wfVal] using h)
      have h1 : valueToProperty (NativeValue.vList l) = .ok (pList ps) := by
        simp only [valueToProperty, henc]
        rfl
      rw [h1]
      show propertyToValue (pList ps) = _
      simp only [propertyToValue, pList, hdec, unwrap]
      rfl
  | .vKey k, h => by
      have hk : wfKey k = true := by simpa [wfVal] using h
      have h1 : valueToProperty (NativeValue.vKey k) =
          .ok (pKey { path_element := protoGroups k, partition_id := nsTruthy k.nameSpace }) := by
        simp only [valueToProperty, keyToKeyProto_wf_ok k hk]
        rfl
      rw [h1]
      show propertyToValue (pKey _) = _
      simp only [propertyToValue, pKey, keyFromKeyProto_roundTrip k hk, unwrap]
      rfl
  | .vEntity fs, h => by
      simp only [wfVal, Bool.and_eq_true] at h
      obtain ⟨⟨hfne, hnd⟩, hwf⟩ := h
      obtain ⟨ps, henc, hdec⟩ := roundTripFields fs hwf
      have hdec' := hdec [] (by simp) hnd
      have hempty : fs.isEmpty = false := by
        cases fs with
        | nil => simp at hfne
        | cons a l => rfl
      have h1 : valueToProperty (NativeValue.vEntity fs) = .ok (pEntity ps) := by
        simp only [valueToProperty, hempty, Bool.false_eq_true, if_false, henc]
        rfl
      rw [h1]
      show propertyToValue (pEntity ps) = _
      simp only [propertyToValue, pEntity, hdec', List.nil_append, unwrap]
      rfl
  | .vUndefined, h => by simp [wfVal] at h

theorem roundTripList : ∀ (l : List NativeValue), wfValList l = true →
    ∃ ps, valueListToProps l = .ok ps ∧ propListToValues ps = .ok (unwrapList l)
  | [], _ => ⟨[], rfl, rfl⟩
  | v :: vs, h => by
      have h' := (Bool.and_eq_true _ _).mp (by simpa [wfValList] using h)
      have hr := roundTripAux v h'.1
      obtain ⟨p, hp, hpd⟩ := except_bind_ok_inv _ _ _ hr
      obtain ⟨ps, hps, hpsd⟩ := roundTripList vs h'.2
      refine ⟨p :: ps, ?_, ?_⟩
      · simp only [valueListToProps, hp, hps]
        rfl
      · simp only [propListToValues, hpd, hpsd, unwrapList]
        rfl

theorem roundTripFields : ∀ (fs : List (String × NativeValue)), wfValFields fs = true →
    ∃ ps, entityFieldsToProps fs = .ok ps ∧
      (∀ acc : List (String × NativeValue),
        (∀ n ∈ fs.map Prod.fst, n ∉ acc.map Prod.fst) →
        nodupNames (fs.map Prod.fst) = true →
        entityProtoFields acc ps = .ok (acc ++ unwrapFields fs))
  | [], _ => ⟨[], rfl, fun acc _ _ => by simp [entityProtoFields, unwrapFields]⟩
  | (n, v) :: rest, h => by
      have h' := (Bool.and_eq_true _ _).mp (by simpa [wfValFields] using h)
      have hr := roundTripAux v h'.1
      obtain ⟨p, hp, hpd⟩ := except_bind_ok_inv _ _ _ hr
      obtain ⟨ps, hps, hpsd⟩ := roundTripFields rest h'.2
      refine ⟨(n, p) :: ps, ?_, ?_⟩
      · simp only [entityFieldsToProps, hp, hps]
        rfl
      · intro acc hdisj hnd
        simp only [List.map_cons, nodupNames, Bool.and_eq_true] at hnd
        have hnmem : n ∉ acc.map Prod.fst := hdisj n (by simp)
        have hstep : entityProtoFields acc ((n, p) :: ps) =
            entityProtoFields (jsAssign acc n (unwrap v)) ps := by
          simp only [entityProtoFields, hpd]
          rfl
        rw [hstep, jsAssign_not_mem acc n (unwrap v) hnmem]
        rw [hpsd (acc ++ [(n, unwrap v)]) ?_ hnd.2]
        · simp [unwrapFields]
        · intro m hm
          simp only [List.map_append, List.map_cons, List.map_nil, List.mem_append,
            List.mem_singleton, not_or]
          refine ⟨fun hma => hdisj m (by simp [hm]) hma, fun hmn => ?_⟩
          subst hmn
          have hc : (rest.map Prod.fst).contains m = true :=
            List.elem_eq_true_of_mem hm
          have hfalse := hnd.1
          rw [hc] at hfalse
          exact absurd hfalse (by simp)

end

/-! ### Lemmas: the constructor's popped kind and path reproduction -/

theorem buildKeyRev_kind (ns : Option String) : ∀ (r : List PVal),
    (buildKeyRev ns r).kind =
      (if r.length % 2 == 0 then
        match r with
        | _ :: k :: _ => k
        | _ => PVal.undefined
      else
        match r with
        | k :: _ => k
        | _ => PVal.undefined)
  | [] => rfl
  | [k] => rfl
  | a :: b :: rest => by
      by_cases h : ((a :: b :: rest).length % 2 == 0) = true
      · simp only [buildKeyRev, h, if_true, KeyStruct.kind]
      · have h' : ((a :: b :: rest).length % 2 == 0) = false := Bool.eq_false_iff.mpr h
        simp only [buildKeyRev, h', Bool.false_eq_true, if_false, KeyStruct.kind]

theorem key_constructor_kind (ns : Option String) (p : List PVal) :
    (buildKey ns p).kind = poppedKind p := by
  unfold buildKey poppedKind
  rw [buildKeyRev_kind, List.length_reverse]

theorem nameOrId_identParts (idv : PVal) (h : slotOk idv = true) :
    nameOrIdOf (identParts idv).2 (identParts idv).1 = idv := by
  cases idv with
  | num q => rfl
  | str s =>
      simp only [slotOk, decide_eq_true_eq] at h
      simp [identParts, nameOrIdOf, h]
  | undefined => rfl

theorem buildKeyRev_path (ns : Option String) : ∀ (r : List PVal), r ≠ [] →
    r.length % 2 = 0 → wfSlotsRev r = true →
    keyPathElems (buildKeyRev ns r) = r.reverse
  | [], hne, _, _ => absurd rfl hne
  | [k], _, hev, _ => by simp at hev
  | idv :: k :: rest, _, hev, hwf => by
      simp only [wfSlotsRev, Bool.and_eq_true] at hwf
      have hguard : ((idv :: k :: rest).length % 2 == 0) = true := by
        simpa using hev
      rw [buildKeyRev]
      rw [hguard]
      simp only [if_true]
      cases rest with
      | nil =>
          simp only [List.isEmpty_nil, if_true, keyPathElems, List.reverse_cons,
            List.reverse_nil, List.nil_append, List.cons_append, List.append_nil]
          rw [nameOrId_identParts idv hwf.1]
      | cons a l =>
          have hrne : (a :: l : List PVal) ≠ [] := by simp
          have hrev : (keyPathElems (buildKeyRev ns (a :: l))) = (a :: l).reverse :=
            buildKeyRev_path ns (a :: l) hrne (by
              simp only [List.length_cons] at hev ⊢
              omega) hwf.2
          simp only [List.isEmpty_cons, Bool.false_eq_true, if_false, keyPathElems]
          rw [hrev, nameOrId_identParts idv hwf.1]
          simp

theorem buildKey_path_reproduction (ns : Option String) (p : List PVal)
    (hne : p ≠ []) (hev : p.length % 2 = 0) (hwf : pathSlotsOk p = true) :
    keyPathElems (buildKey ns p) = p := by
  unfold buildKey
  rw [buildKeyRev_path ns p.reverse (by simpa [List.reverse_eq_nil_iff] using hne)
    (by simpa using hev) (by simpa [pathSlotsOk] using hwf)]
  simp

/-! ### Claim theorems -/

/-- **C1** (amended): for every well-formed native value of the supported tag
set — `Int` wrappers holding integral payloads, keys well formed, records
non-empty with distinct field names — decoding the encoding yields exactly the
value with every `Int`/`Double` wrapper replaced by a plain number carrying
the same payload (`unwrap`); plain numbers, timestamps, strings, blobs, lists,
keys and records come back unchanged.  The original claim fails because the
wrappers do not survive the round trip (see the counterexample). -/
theorem roundTrip_unwraps_wrappers (v : NativeValue) (h : wfVal v = true) :
    roundTrip v = .ok (unwrap v) :=
  roundTripAux v h

theorem roundTrip_unwraps_wrappers_witness :
    wfVal (NativeValue.vEntity [("name", .vStr "Ada"), ("count", .vInt 7)]) = true ∧
    roundTrip (NativeValue.vEntity [("name", .vStr "Ada"), ("count", .vInt 7)]) =
      .ok (NativeValue.vEntity [("name", .vStr "Ada"), ("count", .vNum 7)]) :=
  ⟨rfl, roundTrip_unwraps_wrappers (NativeValue.vEntity
    [("name", .vStr "Ada"), ("count", .vInt 7)]) rfl⟩

/-- A `Double` wrapper with payload `7.5` decodes to the plain number `7.5`,
not back to a `Double` wrapper — refuting the claim that the round trip is
the identity up to the two stated caveats. -/
theorem roundTrip_counterexample :
    roundTrip (NativeValue.vDouble (mkRat 15 2)) = .ok (NativeValue.vNum (mkRat 15 2)) ∧
    (Except.ok (NativeValue.vNum (mkRat 15 2)) : Except String NativeValue) ≠
      .ok (NativeValue.vDouble (mkRat 15 2)) :=
  ⟨rfl, fun h => NativeValue.noConfusion (Except.ok.inj h)⟩

/-- **C2** (amended): `isKeyComplete` does not catch conversion failures: it
propagates the two `keyToKeyProto` errors (non-string root kind; ancestor
level with a falsy `name || id`), and only when conversion succeeds does it
return a boolean, which is true exactly when every level of the key has a
truthy kind and a truthy identifier.  The original claim fails because the
predicate can throw (see the counterexample). -/
theorem isKeyComplete_propagates_failures (k : KeyStruct) :
    isKeyComplete k =
      if isStr (rootKind k) then
        if hasAncestorGap k then .error "Invalid key. Ancestor keys require an id or name."
        else .ok (allKindsTruthy k && allIdentsTruthy k)
      else .error "A key should contain at least a kind." :=
  isKeyComplete_eq k

/-- `isKeyComplete` on a key whose kind is the number `123` throws instead of
returning `false`. -/
theorem isKeyComplete_counterexample :
    isKeyComplete (buildKey none [PVal.num 123]) =
      .error "A key should contain at least a kind." := rfl

/-- **C3** (amended): the `Key` constructor performs no validation and always
succeeds: the kind is whatever element is popped (the second-to-last for an
even path, the last for an odd path, `undefined` when the path is exhausted),
even when that element is absent or not a string; the malformed-key error for
a non-string kind surfaces only later, in `keyToKeyProto`.  The original
claim fails because construction never throws (see the counterexample). -/
theorem key_constructor_defers_validation :
    (∀ (ns : Option String) (p : List PVal), (buildKey ns p).kind = poppedKind p) ∧
    buildKey none [PVal.num 123] = KeyStruct.mk none (PVal.num 123) none none none ∧
    keyToKeyProto (buildKey none [PVal.num 123]) =
      .error "A key should contain at least a kind." ∧
    buildKey none [] = KeyStruct.mk none PVal.undefined none none none :=
  ⟨key_constructor_kind, rfl, rfl, rfl⟩

/-- `buildKey` silently builds a key whose kind is the number `123` — no
`MalformedKey` error is raised at construction time. -/
theorem key_constructor_counterexample :
    buildKey none [PVal.num 123] = KeyStruct.mk none (PVal.num 123) none none none := rfl

/-- **C4** (amended): an unknown filter operator is not an error:
`OP_TO_OPERATOR` lookup yields `undefined` and the compiled
`property_filter` simply carries an absent operator; whether filter
compilation succeeds never depends on the op (only on the value
conversion).  The original claim fails because no `UnsupportedOperator`
error exists in the code (see the counterexample). -/
theorem unknown_operator_not_an_error (f : QFilter) (g : String) :
    (filterToProto { name := f.name, op := g, val := f.val }).isOk =
      (filterToProto f).isOk ∧
    (∀ pf, filterToProto f = .ok pf → pf.operator = OP_TO_OPERATOR f.op) := by
  obtain ⟨n, o, v⟩ := f
  constructor
  · show (filterToProto ⟨n, g, v⟩).isOk = (filterToProto ⟨n, o, v⟩).isOk
    have hfv : filterValue ⟨n, g, v⟩ = filterValue ⟨n, o, v⟩ := rfl
    simp only [filterToProto, hfv]
    cases filterValue ⟨n, o, v⟩ <;> rfl
  · intro pf hpf
    simp only [filterToProto] at hpf
    cases hv : filterValue ⟨n, o, v⟩ with
    | ok val =>
        rw [hv] at hpf
        have hinj : ({ name := n, operator := OP_TO_OPERATOR o, value := val } :
            PropertyFilter) = pf := Except.ok.inj hpf
        rw [← hinj]
    | error e =>
        rw [hv] at hpf
        exact Except.noConfusion hpf

theorem unknown_operator_not_an_error_witness :
    ({ name := "priority", operator := OP_TO_OPERATOR "LIKE",
       value := pInteger 1 } : PropertyFilter).operator = OP_TO_OPERATOR "LIKE" :=
  (unknown_operator_not_an_error { name := "priority", op := "LIKE", val := .vNum 1 } "=").2
    { name := "priority", operator := OP_TO_OPERATOR "LIKE", value := pInteger 1 } rfl

/-- A query whose only filter uses the unknown op `LIKE` compiles without any
error; the property filter's operator slot is simply `undefined`. -/
theorem unknown_operator_counterexample :
    queryToQueryProto
      { kinds := ["Kind"],
        filters := [{ name := "priority", op := "LIKE", val := .vNum 1 }],
        orders := [], groupByVal := [], selectVal := [], startVal := none, endVal := none,
        limitVal := -1, offsetVal := -1 } =
    .ok
      { projection := [], kind := [{ name := "Kind" }],
        filter := some
          { filter := [{ name := "priority", operator := none, value := pInteger 1 }],
            operator := "AND" },
        order := [], group_by := [], start_cursor := none, end_cursor := none,
        offset := none, limit := none } := rfl

/-- **C5**: the query description with `kinds:['Kind']`, the single
`HAS_ANCESTOR` filter on `__key__`, one descending order on `created`,
`limitVal:10` and non-positive `offsetVal` compiles to the stated proto with
`limit` present and `offset` absent; in general `offset` and `limit` appear
iff strictly positive, and the `filter` field iff the filter list is
non-empty. -/
theorem query_compilation_example :
    (∀ (k : KeyStruct) (kp : KeyProto) (off : ℤ), keyToKeyProto k = .ok kp → off ≤ 0 →
      queryToQueryProto
        { kinds := ["Kind"],
          filters := [{ name := "__key__", op := "HAS_ANCESTOR", val := .vKey k }],
          orders := [{ name := "created", sign := "-" }],
          groupByVal := [], selectVal := [], startVal := none, endVal := none,
          limitVal := 10, offsetVal := off } =
      .ok
        { projection := [], kind := [{ name := "Kind" }],
          filter := some
            { filter := [{ name := "__key__", operator := some "HAS_ANCESTOR", value := pKey kp }],
              operator := "AND" },
          order := [{ name := "created", direction := some "DESCENDING" }], group_by := [],
          start_cursor := none, end_cursor := none, offset := none, limit := some 10 }) ∧
    (∀ (q : QueryDesc) (qp : QueryProto), queryToQueryProto q = .ok qp →
      qp.offset = (if q.offsetVal > 0 then some q.offsetVal else none) ∧
      qp.limit = (if q.limitVal > 0 then some q.limitVal else none) ∧
      (qp.filter = none ↔ q.filters = [])) := by
  constructor
  · intro k kp off hk hoff
    have hoff' : ¬(off > 0) := by omega
    simp only [queryToQueryProto, mapFilters, filterToProto, filterValue]
    simp [hk, hoff', OP_TO_OPERATOR, SIGN_TO_ORDER]
    rfl
  · intro q qp hq
    simp only [queryToQueryProto] at hq
    cases hfe : q.filters.isEmpty with
    | true =>
        rw [hfe] at hq
        simp only [if_true] at hq
        have hrec :
            ({ projection := q.selectVal.map (fun v => { name := v }),
               kind := q.kinds.map (fun k => { name := k }),
               filter := none,
               order := q.orders.map (fun o => { name := o.name, direction := SIGN_TO_ORDER o.sign }),
               group_by := q.groupByVal.map (fun g => { name := g }),
               start_cursor := q.startVal.bind (fun s => if s = "" then none else some s),
               end_cursor := q.endVal.bind (fun s => if s = "" then none else some s),
               offset := if q.offsetVal > 0 then some q.offsetVal else none,
               limit := if q.limitVal > 0 then some q.limitVal else none } : QueryProto)
            = qp := Except.ok.inj hq
        have hfil : q.filters = [] := by
          cases hl : q.filters with
          | nil => rfl
          | cons a l => rw [hl] at hfe; simp at hfe
        rw [← hrec]
        simp [hfil]
    | false =>
        rw [hfe] at hq
        simp only [Bool.false_eq_true, if_false] at hq
        cases hm : mapFilters q.filters with
        | error e =>
            rw [hm] at hq
            exact Except.noConfusion hq
        | ok fs =>
            rw [hm] at hq
            have hrec :
                ({ projection := q.selectVal.map (fun v => { name := v }),
                   kind := q.kinds.map (fun k => { name := k }),
                   filter := some { filter := fs, operator := "AND" },
                   order := q.orders.map (fun o => { name := o.name, direction := SIGN_TO_ORDER o.sign }),
                   group_by := q.groupByVal.map (fun g => { name := g }),
                   start_cursor := q.startVal.bind (fun s => if s = "" then none else some s),
                   end_cursor := q.endVal.bind (fun s => if s = "" then none else some s),
                   offset := if q.offsetVal > 0 then some q.offsetVal else none,
                   limit := if q.limitVal > 0 then some q.limitVal else none } : QueryProto)
                = qp := Except.ok.inj hq
            have hfil : q.filters ≠ [] := by
              intro hl
              rw [hl] at hfe
              simp at hfe
            rw [← hrec]
            simp [hfil]

theorem query_compilation_example_witness :
    queryToQueryProto
      { kinds := ["Kind"],
        filters := [{ name := "__key__", op := "HAS_ANCESTOR", val := .vKey (buildKey none [.str "Company", .num 123]) }],
        orders := [{ name := "created", sign := "-" }],
        groupByVal := [], selectVal := [], startVal := none, endVal := none,
        limitVal := 10, offsetVal := -1 } =
    .ok
      { projection := [], kind := [{ name := "Kind" }],
        filter := some
          { filter := [{ name := "__key__", operator := some "HAS_ANCESTOR", value := pKey { path_element := [{ kind := .str "Company", id := some (.num 123) }] } }],
            operator := "AND" },
        order := [{ name := "created", direction := some "DESCENDING" }], group_by := [],
        start_cursor := none, end_cursor := none, offset := none, limit := some 10 } :=
  query_compilation_example.1 (buildKey none [.str "Company", .num 123])
    { path_element := [{ kind := .str "Company", id := some (.num 123) }] } (-1) rfl
    (by decide)

/-- **C6**: `propertyToValue` inspects the value fields in the fixed order
integer, double, string, blob, timestamp, key, entity, boolean, list, and
converts the first present (`some`) field; a property with none of them set
decodes to `undefined` without any error. -/
theorem propertyToValue_precedence (p : Property) :
    (∀ q, p.integer_value = some q → propertyToValue p = .ok (.vNum (ratTrunc q))) ∧
    (∀ q, p.integer_value = none → p.double_value = some q →
      propertyToValue p = .ok (.vNum q)) ∧
    (∀ s, p.integer_value = none → p.double_value = none → p.string_value = some s →
      propertyToValue p = .ok (.vStr s)) ∧
    (∀ bs, p.integer_value = none → p.double_value = none → p.string_value = none →
      p.blob_value = some bs → propertyToValue p = .ok (.vBlob bs)) ∧
    (∀ t, p.integer_value = none → p.double_value = none → p.string_value = none →
      p.blob_value = none → p.timestamp_microseconds_value = some t →
      propertyToValue p = .ok (.vDate (ratTruncZ ((t : ℚ) / 1000)))) ∧
    (∀ kp, p.integer_value = none → p.double_value = none → p.string_value = none →
      p.blob_value = none → p.timestamp_microseconds_value = none → p.key_value = some kp →
      propertyToValue p = (keyFromKeyProto kp).map NativeValue.vKey) ∧
    (∀ es, p.integer_value = none → p.double_value = none → p.string_value = none →
      p.blob_value = none → p.timestamp_microseconds_value = none → p.key_value = none →
      p.entity_value = some es →
      propertyToValue p = (entityFromEntityProto es).map NativeValue.vEntity) ∧
    (∀ b, p.integer_value = none → p.double_value = none → p.string_value = none →
      p.blob_value = none → p.timestamp_microseconds_value = none → p.key_value = none →
      p.entity_value = none → p.boolean_value = some b →
      propertyToValue p = .ok (.vBool b)) ∧
    (∀ ps, p.integer_value = none → p.double_value = none → p.string_value = none →
      p.blob_value = none → p.timestamp_microseconds_value = none → p.key_value = none →
      p.entity_value = none → p.boolean_value = none → p.list_value = some ps →
      propertyToValue p = (propListToValues ps).map NativeValue.vList) ∧
    (p.integer_value = none → p.double_value = none → p.string_value = none →
      p.blob_value = none → p.timestamp_microseconds_value = none → p.key_value = none →
      p.entity_value = none → p.boolean_value = none → p.list_value = none →
      propertyToValue p = .ok .vUndefined) := by
  obtain ⟨bv, iv, dv, sv, blv, tv, kv, ev, lv, ix⟩ := p
  simp only [Property.integer_value, Property.double_value, Property.string_value,
    Property.blob_value, Property.timestamp_microseconds_value, Property.key_value,
    Property.entity_value, Property.boolean_value, Property.list_value]
  refine ⟨?_, ?_, ?_, ?_, ?_, ?_, ?_, ?_, ?_, ?_⟩
  · intro q h1
    subst h1
    rfl
  · intro q h1 h2
    subst h1; subst h2
    rfl
  · intro s h1 h2 h3
    subst h1; subst h2; subst h3
    rfl
  · intro bs h1 h2 h3 h4
    subst h1; subst h2; subst h3; subst h4
    rfl
  · intro t h1 h2 h3 h4 h5
    subst h1; subst h2; subst h3; subst h4; subst h5
    rfl
  · intro kp h1 h2 h3 h4 h5 h6
    subst h1; subst h2; subst h3; subst h4; subst h5; subst h6
    simp only [propertyToValue]
    cases hk : keyFromKeyProto kp <;> rfl
  · intro es h1 h2 h3 h4 h5 h6 h7
    subst h1; subst h2; subst h3; subst h4; subst h5; subst h6; subst h7
    simp only [propertyToValue, entityFromEntityProto]
    cases hk : entityProtoFields [] es <;> rfl
  · intro b h1 h2 h3 h4 h5 h6 h7 h8
    subst h1; subst h2; subst h3; subst h4; subst h5; subst h6; subst h7; subst h8
    rfl
  · intro ps h1 h2 h3 h4 h5 h6 h7 h8 h9
    subst h1; subst h2; subst h3; subst h4; subst h5; subst h6; subst h7; subst h8; subst h9
    simp only [propertyToValue]
    cases hk : propListToValues ps <;> rfl
  · intro h1 h2 h3 h4 h5 h6 h7 h8 h9
    subst h1; subst h2; subst h3; subst h4; subst h5; subst h6; subst h7; subst h8; subst h9
    rfl

theorem propertyToValue_precedence_witness :
    propertyToValue pEmpty = .ok .vUndefined :=
  (propertyToValue_precedence pEmpty).2.2.2.2.2.2.2.2.2
    rfl rfl rfl rfl rfl rfl rfl rfl rfl

/-- **C7**: an `Int` wrapper always encodes to `integer_value` and a `Double`
wrapper always to `double_value` (a `Double` with integral payload such as 7
included), while a plain number goes to `integer_value` exactly when its
fractional part is zero (`v % 1 === 0`, i.e. the number is an integer) and
to `double_value` otherwise. -/
theorem numeric_encoding_disambiguation (q : ℚ) :
    valueToProperty (.vInt q) = .ok (pInteger q) ∧
    valueToProperty (.vDouble q) = .ok (pDouble q) ∧
    valueToProperty (.vNum q) = .ok (if fracZero q then pInteger q else pDouble q) ∧
    (fracZero q = true ↔ ∃ n : ℤ, q = (n : ℚ)) ∧
    valueToProperty (.vDouble (7 : ℚ)) = .ok (pDouble 7) ∧
    fracZero (7 : ℚ) = true := by
  refine ⟨rfl, rfl, rfl, ?_, rfl, rfl⟩
  constructor
  · intro h
    simp only [fracZero, Nat.beq_eq_true_eq] at h
    exact ⟨q.num, ((Rat.den_eq_one_iff q).mp h).symm⟩
  · rintro ⟨n, rfl⟩
    simp [fracZero, Rat.den_intCast]

/-- **C8**: `keyToKeyProto` fails exactly when the first path element is not
a string kind, or a non-terminal stride-2 group lacks an identifier — where
"lacks" is the JavaScript-truthiness test the code performs, so a zero id or
an empty name counts as absent; on success it emits one `{kind, id|name}`
element per group and a `partition_id` exactly when the namespace is a set,
non-empty string. -/
theorem keyToKeyProto_error_characterization (k : KeyStruct) :
    keyToKeyProto k =
      if isStr (rootKind k) then
        if hasAncestorGap k then .error "Invalid key. Ancestor keys require an id or name."
        else .ok { path_element := protoGroups k, partition_id := nsTruthy k.nameSpace }
      else .error "A key should contain at least a kind." :=
  keyToKeyProto_eq k

/-- **C9** (amended): the derived path is the parent's path followed by
`[kind, name || id]` where the identifier slot is always appended — as
`undefined` when the key has no identifier — so every derived path has even
length; a well-formed even path is reproduced verbatim, and the two concrete
examples hold; an incomplete key's path ends in `[kind, undefined]` rather
than in the bare kind.  The original claim fails on its incomplete-key
clause (see the counterexample). -/
theorem key_path_derivation :
    (∀ (ns : Option String) (p : List PVal), p ≠ [] → p.length % 2 = 0 →
      pathSlotsOk p = true → keyPathElems (buildKey ns p) = p) ∧
    (∀ k : KeyStruct, (keyPathElems k).length % 2 = 0) ∧
    keyPathElems (buildKey none [.str "Company", .num 123]) = [.str "Company", .num 123] ∧
    keyPathElems (buildKey none [.str "Company", .str "Google", .str "Branch", .num 1]) =
      [.str "Company", .str "Google", .str "Branch", .num 1] ∧
    (buildKey none [.str "Company", .str "Google", .str "Branch", .num 1]).parent =
      some (buildKey none [.str "Company", .str "Google"]) ∧
    keyPathElems (buildKey none [.str "Company", .str "Google"]) =
      [.str "Company", .str "Google"] ∧
    keyPathElems (buildKey none [.str "Company"]) = [.str "Company", .undefined] :=
  ⟨buildKey_path_reproduction, keyPathElems_length_even, rfl, rfl, rfl, rfl, rfl⟩

theorem key_path_derivation_witness :
    keyPathElems (buildKey (some "ns") [.str "Kind", .num 42]) = [.str "Kind", .num 42] :=
  key_path_derivation.1 (some "ns") [.str "Kind", .num 42] (by decide) (by decide)
    (by decide)

/-- The path of the incomplete key built from `['Company']` is
`['Company', undefined]` — two elements, the last an identifier slot holding
`undefined` — not a path ending in the bare kind. -/
theorem key_path_counterexample :
    keyPathElems (buildKey none [PVal.str "Company"]) = [PVal.str "Company", PVal.undefined] ∧
    keyPathElems (buildKey none [PVal.str "Company"]) ≠ [PVal.str "Company"] ∧
    (keyPathElems (buildKey none [PVal.str "Company"])).getLast? = some PVal.undefined :=
  ⟨rfl, by decide, rfl⟩

/-- **C10**: identifiers are tested by truthiness, not presence: a numeric id
`0` or an empty-string name makes `keyToKeyProto` emit the element without
id or name (erroring when the segment is a non-terminal ancestor, and making
`isKeyComplete` answer `false` when it is terminal), and `keyFromKeyProto`
parses a protocol id of `"0"` as absent, falling back to the name field. -/
theorem identifier_truthiness :
    keyToKeyProto (KeyStruct.mk none (.str "T") (some 0) none none) =
      .ok { path_element := [{ kind := .str "T" }] } ∧
    isKeyComplete (KeyStruct.mk none (.str "T") (some 0) none none) = .ok false ∧
    keyToKeyProto (KeyStruct.mk none (.str "T") none (some "") none) =
      .ok { path_element := [{ kind := .str "T" }] } ∧
    isKeyComplete (KeyStruct.mk none (.str "T") none (some "") none) = .ok false ∧
    keyToKeyProto (KeyStruct.mk none (.str "C") (some 1) none
        (some (KeyStruct.mk none (.str "P") (some 0) none none))) =
      .error "Invalid key. Ancestor keys require an id or name." ∧
    keyToKeyProto (KeyStruct.mk none (.str "C") (some 1) none
        (some (KeyStruct.mk none (.str "P") none (some "") none))) =
      .error "Invalid key. Ancestor keys require an id or name." ∧
    keyFromKeyProto
      { path_element := [{ kind := .str "K", id := some (.str "0"), name := some "N" }] } =
      .ok (KeyStruct.mk none (.str "K") none (some "N") none) :=
  ⟨rfl, rfl, rfl, rfl, rfl, rfl, rfl⟩

end GCloudEntity
